import Mathlib

/-!
Shallow embedding of the triangulation and voxel-accumulation engine of the
fisheye-stereo-voxel-reconstruction repository.  Real-valued float arithmetic
of the source is modelled over `ℚ`; where the source computes a Euclidean
norm (a square root), the embedding carries the squared quantity and every
comparison against a threshold `m` is mirrored against `m^2`, which is
equivalent because squaring is strictly monotone on nonnegatives.
-/

namespace FisheyeStereo

/-- A 3-component vector over `ℚ`, standing for the `np.array([x, y, z])`
float vectors of the source. -/
structure Vec3 where
  x : ℚ
  y : ℚ
  z : ℚ
deriving DecidableEq

def Vec3.add (a b : Vec3) : Vec3 := ⟨a.x + b.x, a.y + b.y, a.z + b.z⟩

def Vec3.sub (a b : Vec3) : Vec3 := ⟨a.x - b.x, a.y - b.y, a.z - b.z⟩

def Vec3.smul (t : ℚ) (v : Vec3) : Vec3 := ⟨t * v.x, t * v.y, t * v.z⟩

/-- Embedding of `np.dot` on 3-vectors. -/
def Vec3.dot (a b : Vec3) : ℚ := a.x * b.x + a.y * b.y + a.z * b.z

/-- Squared Euclidean norm: the square of `np.linalg.norm`. -/
def Vec3.normSq (v : Vec3) : ℚ := Vec3.dot v v

/-- Embedding of `StereoVoxelReconstructor.closest_point_between_rays`
(src/camera/stereo_voxel_reconstruction.py lines 105-144; the code in
`CalibratedStereoReconstructor.closest_point_between_rays`,
src/camera/calibrated_stereo_reconstruction.py lines 165-204, is identical).
The source first re-normalizes `dir1` and `dir2`; every call site passes the
unit vectors produced by `get_ray_direction`, for which that division by the
norm is the identity, so the embedding takes the unit directions directly.
The source returns `(midpoint, |point2 - point1|)`; the embedding returns the
squared separation (see the file header). -/
def closest_point_between_rays (origin1 dir1 origin2 dir2 : Vec3) :
    Option (Vec3 × ℚ) :=
  let dot := Vec3.dot dir1 dir2
  if 996/1000 < |dot| then none
  else
    let w0 := Vec3.sub origin1 origin2
    let a := Vec3.dot dir1 dir1
    let b := Vec3.dot dir1 dir2
    let c := Vec3.dot dir2 dir2
    let d := Vec3.dot dir1 w0
    let e := Vec3.dot dir2 w0
    let denom := a * c - b * b
    if |denom| < 1/1000000 then none
    else
      let s := (b * e - c * d) / denom
      let t := (a * e - b * d) / denom
      let point1 := Vec3.add origin1 (Vec3.smul s dir1)
      let point2 := Vec3.add origin2 (Vec3.smul t dir2)
      some (Vec3.smul (1/2) (Vec3.add point1 point2),
            Vec3.normSq (Vec3.sub point2 point1))

/-- The closest-approach parameters of the two rays, in the naming of
src/camera/stereo_triangulation_calibration.py lines 64-65 (which the spec
follows): `t = (b*e - c*d)/denom` places the point on ray 1 and
`s = (a*e - b*d)/denom` on ray 2.  (The reconstructor variants bind the same
two formulas to the swapped names `s`, `t`; the pair of values is the same.) -/
def ray_params (origin1 dir1 origin2 dir2 : Vec3) : ℚ × ℚ :=
  let w0 := Vec3.sub origin1 origin2
  let a := Vec3.dot dir1 dir1
  let b := Vec3.dot dir1 dir2
  let c := Vec3.dot dir2 dir2
  let d := Vec3.dot dir1 w0
  let e := Vec3.dot dir2 w0
  let denom := a * c - b * b
  ((b * e - c * d) / denom, (a * e - b * d) / denom)

/-- The module-level `closest_point_between_rays` of
src/camera/stereo_triangulation_calibration.py lines 31-81: the only variant
in the repository with the behind-camera rejection `if t < 0 or s < 0`.
The source divides each direction by `‖d‖ + 1e-10`; for the unit directions
every call site passes, this rescales both directions by the same factor
`1/(1 + 1e-10)`, which leaves the closest-approach points, the parameter
signs and the separation unchanged and shifts the two gate comparisons only
at that epsilon scale, so the embedding takes the unit directions directly.
The source signals rejection with `(None, inf)`; the embedding uses `none`. -/
def closest_point_between_rays_stc (p1 d1 p2 d2 : Vec3) : Option (Vec3 × ℚ) :=
  let w := Vec3.sub p1 p2
  let a := Vec3.dot d1 d1
  let b := Vec3.dot d1 d2
  let c := Vec3.dot d2 d2
  let d := Vec3.dot d1 w
  let e := Vec3.dot d2 w
  let denom := a * c - b * b
  if |denom| < 1/1000000 ∨ 996/1000 < |b| then none
  else
    let t := (b * e - c * d) / denom
    let s := (a * e - b * d) / denom
    if t < 0 ∨ s < 0 then none
    else
      let point1 := Vec3.add p1 (Vec3.smul t d1)
      let point2 := Vec3.add p2 (Vec3.smul s d2)
      some (Vec3.smul (1/2) (Vec3.add point1 point2),
            Vec3.normSq (Vec3.sub point1 point2))

/-- Embedding of `StereoVoxelReconstructor.triangulate_pixel_pair`
(src/camera/stereo_voxel_reconstruction.py lines 146-175; the gate sequence in
`CalibratedStereoReconstructor.triangulate_pixel_pair` is identical).  The
pixel-to-ray step `get_ray_direction` involves `atan` and `sqrt`, so the
embedding quantifies over the two unit rays it produces; the camera origins
and the error bound are parameters (`0.10` for the stereo reconstructor,
`0.02` for the calibrated one).  The source compares the separation against
`max_triangulation_error`; the embedding compares the squared separation
against its square. -/
def triangulate_pixel_pair (max_triangulation_error : ℚ)
    (cam_left_pos ray_left cam_right_pos ray_right : Vec3) :
    Option (Vec3 × ℚ) :=
  match closest_point_between_rays cam_left_pos ray_left cam_right_pos ray_right with
  | none => none
  | some (point_3d, errSq) =>
    if max_triangulation_error ^ 2 < errSq then none
    else if point_3d.z < 0 then none
    else if 2 < point_3d.z then none
    else some (point_3d, errSq)

/-- Python `int()` applied to a rational: truncation toward zero. -/
def pyInt (q : ℚ) : ℤ := if q < 0 then ⌈q⌉ else ⌊q⌋

/-- The voxel-grid configuration of a reconstructor: the world-space box
`voxel_bounds`, the edge length `voxel_size` and the grid dimensions
`voxel_grid_size` set in `__init__`. -/
structure VoxelConfig where
  xmin : ℚ
  xmax : ℚ
  ymin : ℚ
  ymax : ℚ
  zmin : ℚ
  zmax : ℚ
  voxel_size : ℚ
  nx : ℤ
  ny : ℤ
  nz : ℤ

/-- The configuration of `StereoVoxelReconstructor.__init__`
(src/camera/stereo_voxel_reconstruction.py lines 41-49): bounds
x ∈ [-0.25, 0.75), y ∈ [-0.5, 0.5), z ∈ [0, 1), 1 cm voxels, 100³ cells. -/
def svr_config : VoxelConfig :=
  { xmin := -1/4, xmax := 3/4, ymin := -1/2, ymax := 1/2, zmin := 0, zmax := 1,
    voxel_size := 1/100, nx := 100, ny := 100, nz := 100 }

/-- Embedding of `StereoVoxelReconstructor.world_to_voxel`
(src/camera/stereo_voxel_reconstruction.py lines 177-216; the code in
`CalibratedStereoReconstructor.world_to_voxel` is identical up to the
configuration): reject a position outside the half-open bounds box, otherwise
truncate the affine map to integer indices and clamp them into the grid. -/
def world_to_voxel (c : VoxelConfig) (world_pos : Vec3) : Option (ℤ × ℤ × ℤ) :=
  if ¬(c.xmin ≤ world_pos.x ∧ world_pos.x < c.xmax) then none
  else if ¬(c.ymin ≤ world_pos.y ∧ world_pos.y < c.ymax) then none
  else if ¬(c.zmin ≤ world_pos.z ∧ world_pos.z < c.zmax) then none
  else
    let vx := pyInt ((world_pos.x - c.xmin) / c.voxel_size)
    let vy := pyInt ((world_pos.y - c.ymin) / c.voxel_size)
    let vz := pyInt ((world_pos.z - c.zmin) / c.voxel_size)
    some (max 0 (min vx (c.nx - 1)), max 0 (min vy (c.ny - 1)),
          max 0 (min vz (c.nz - 1)))

/-- Membership of a world position in the configured world-space box — the
conjunction of the three half-open bounds checks of `world_to_voxel`. -/
def in_box (c : VoxelConfig) (p : Vec3) : Prop :=
  (c.xmin ≤ p.x ∧ p.x < c.xmax) ∧ (c.ymin ≤ p.y ∧ p.y < c.ymax) ∧
    (c.zmin ≤ p.z ∧ p.z < c.zmax)

/-- A voxel index `(vz, vy, vx)` or `(vx, vy, vz)` triple. -/
abbrev VoxelIdx := ℤ × ℤ × ℤ

/-- The dense float grid `self.voxels` / `voxel_grid`, as a total map from
integer index triples to confidence values. -/
abbrev Grid := VoxelIdx → ℚ

/-- Embedding of `StereoVoxelReconstructor.accumulate_voxel`
(src/camera/stereo_voxel_reconstruction.py lines 204-216):
`self.voxels[vx, vy, vz] += confidence` when `world_to_voxel` yields an
index, no write otherwise; the source returns True/False accordingly. -/
def accumulate_voxel (c : VoxelConfig) (g : Grid) (world_pos : Vec3)
    (confidence : ℚ) : Grid × Bool :=
  match world_to_voxel c world_pos with
  | none => (g, false)
  | some v => (Function.update g v (g v + confidence), true)

/-- One `(cell, amount)` contribution added to the grid by the accumulation
loop of `main` (`voxel_grid[vox_z, vox_y, vox_x] += weighted_int * 0.1`,
src/camera/improved_ray_traversal.py lines 225-227 and 257-259): the cell is
the `(vox_z, vox_y, vox_x)` key and the amount is the value actually added. -/
abbrev Contribution := VoxelIdx × ℚ

/-- The per-frame accumulation loop of `main`: fold the frame's contribution
list over the grid, adding each amount to its cell in order. -/
def accumulate_contribs (g : Grid) (l : List Contribution) : Grid :=
  l.foldl (fun acc e => Function.update acc e.1 (acc e.1 + e.2)) g

/-- The `camera_hits[...] = True` bookkeeping of `main`: a cell was seen by a
camera this frame exactly when that camera contributed to it. -/
def seen_by (l : List Contribution) (i : VoxelIdx) : Bool :=
  l.any (fun e => e.1 == i)

/-- The multi-camera confidence boost of `main`
(`voxel_grid[both_cameras] *= 1.5`, src/camera/improved_ray_traversal.py
lines 271-274; `*= config.reconstruction.multi_camera_boost` in
src/camera/configurable_reconstruction.py lines 268-269): every cell hit by
both cameras this frame is multiplied by the boost factor. -/
def apply_boost (boost : ℚ) (left right : List Contribution) (g : Grid) :
    Grid :=
  fun i => if seen_by left i && seen_by right i then g i * boost else g i

/-- The temporal decay of `main` (`voxel_grid *= 0.99`,
src/camera/improved_ray_traversal.py lines 276-277; `*=
config.reconstruction.temporal_decay` in configurable_reconstruction.py):
the whole grid is multiplied by the decay factor once. -/
def apply_decay (decay : ℚ) (g : Grid) : Grid := fun i => g i * decay

/-- One frame cycle of `main` in src/camera/improved_ray_traversal.py
lines 180-277 (identically structured in configurable_reconstruction.py):
accumulate the left camera's contributions, then the right camera's, then
apply the multi-camera boost to cells hit by both, then decay the entire
grid — in that order, each step once. -/
def frame_cycle (boost decay : ℚ) (left right : List Contribution)
    (g : Grid) : Grid :=
  apply_decay decay
    (apply_boost boost left right
      (accumulate_contribs (accumulate_contribs g left) right))

/-- The recording loop of `main`: run one frame cycle per captured frame. -/
def run_cycles (boost decay : ℚ)
    (frames : List (List Contribution × List Contribution)) (g : Grid) :
    Grid :=
  frames.foldl (fun acc f => frame_cycle boost decay f.1 f.2 acc) g

/-- The sum of the amounts a contribution list adds to one cell. -/
def contrib_sum (l : List Contribution) (i : VoxelIdx) : ℚ :=
  ((l.filter (fun e => e.1 == i)).map (fun e => e.2)).sum

/-- The body of the `for i in range(num_steps)` loop of `traverse_ray_3d`
(src/camera/improved_ray_traversal.py lines 58-91), acting on the
accumulator `(voxel_list, visited)`: skip points below ground
(`point_3d[1] < 0`), map the sampled point to voxel coordinates with the
hardcoded x-offset 0.25, keep only in-bounds cells, skip cells already
visited on this ray, and weight each kept cell by `intensity * falloff`
with `falloff = 1/(1 + distance * 0.2)`.  The source computes
`distance = np.linalg.norm(point_3d - camera_pos)`, which equals
`|t| * ‖ray_dir‖ = |t|` for the unit ray directions every call site passes
(they divide by the norm first); the embedding uses `|t|` directly. -/
def traverse_step (camera_pos ray_dir : Vec3) (grid_size : ℤ)
    (voxel_size step_size intensity : ℚ)
    (acc : List Contribution × List VoxelIdx) (i : ℕ) :
    List Contribution × List VoxelIdx :=
  let t := (i : ℚ) * step_size
  let point_3d := Vec3.add camera_pos (Vec3.smul t ray_dir)
  if point_3d.y < 0 then acc
  else
    let vox_x := pyInt ((point_3d.x + 1/4) / voxel_size)
    let vox_y := pyInt (point_3d.y / voxel_size)
    let vox_z := pyInt (point_3d.z / voxel_size)
    if 0 ≤ vox_x ∧ vox_x < grid_size ∧ 0 ≤ vox_y ∧ vox_y < grid_size ∧
        0 ≤ vox_z ∧ vox_z < grid_size then
      let voxel_key : VoxelIdx := (vox_z, vox_y, vox_x)
      if voxel_key ∈ acc.2 then acc
      else
        let falloff := 1 / (1 + |t| * (2/10))
        (acc.1 ++ [(voxel_key, intensity * falloff)], voxel_key :: acc.2)
    else acc

/-- Embedding of `traverse_ray_3d` (src/camera/improved_ray_traversal.py lines 30-93):
sample the ray at half-voxel steps out to `max_distance`, folding
`traverse_step` over the step indices and returning the contribution
list. -/
def traverse_ray_3d (camera_pos ray_dir : Vec3) (grid_size : ℤ)
    (voxel_size max_distance intensity : ℚ) : List Contribution :=
  let step_size := voxel_size * (1/2)
  let num_steps := (pyInt (max_distance / step_size)).toNat
  ((List.range num_steps).foldl
    (traverse_step camera_pos ray_dir grid_size voxel_size step_size
      intensity)
    (([] : List Contribution), ([] : List VoxelIdx))).1

/-- Python `lst[::step]`: every `step`-th element of a list, starting with
the first. -/
def every_nth {α : Type} (l : List α) (step : ℕ) : List α :=
  (l.enum.filter (fun p => p.1 % step == 0)).map Prod.snd

/-- Embedding of `StereoVoxelReconstructor.detect_motion_pixels`
(src/camera/stereo_voxel_reconstruction.py lines 218-250).  A grayscale
frame is a map from row `y` and column `x` to an integer intensity; on the
first frame of a session `previous` is `none` and the result is `[]`.
Otherwise the kept pixels are exactly those with
`|current - previous| > motion_threshold` (the `cv2.absdiff` mask) AND
`current > min_pixel_intensity`, listed as `(x, y, intensity)` in the
row-major order `np.where` produces, then strided down to at most
`max_pixels` entries via `pixels[::step][:max_pixels]`. -/
def detect_motion_pixels (motion_threshold min_pixel_intensity : ℤ)
    (H W : ℕ) (current : ℕ → ℕ → ℤ) (previous : Option (ℕ → ℕ → ℤ))
    (max_pixels : ℕ) : List (ℕ × ℕ × ℤ) :=
  match previous with
  | none => []
  | some prev =>
    let coords := (List.range H).flatMap
      (fun y => (List.range W).map (fun x => (x, y)))
    let hits := coords.filter (fun q =>
      decide (motion_threshold < |current q.2 q.1 - prev q.2 q.1|) &&
      decide (min_pixel_intensity < current q.2 q.1))
    let pixels := hits.map (fun q => (q.1, q.2, current q.2 q.1))
    if max_pixels < pixels.length then
      (every_nth pixels (pixels.length / max_pixels)).take max_pixels
    else pixels

/-- The camera-local ray built by `get_ray_direction` before normalization:
`ray = np.array([norm_x, norm_y, 1.0])`
(src/camera/stereo_voxel_reconstruction.py lines 93-99, identical in
calibrated_stereo_reconstruction.py and in
`CameraCalibration.get_ray_direction`, src/camera/calibration_loader.py
lines 160-171). -/
def camera_ray (norm_x norm_y : ℚ) : Vec3 := ⟨norm_x, norm_y, 1⟩

/-- Embedding of `ray / np.linalg.norm(ray)`: division of every component by the
Euclidean norm `n`, which is characterized over `ℚ` by
`0 ≤ n ∧ n^2 = Vec3.normSq v`. -/
def normalize_by (n : ℚ) (v : Vec3) : Vec3 := ⟨v.x / n, v.y / n, v.z / n⟩

/-- The pixel-normalization step of `get_ray_direction`
(src/camera/stereo_voxel_reconstruction.py lines 78-80):
`norm_x = (pixel_x - cx) / fx`, `norm_y = (pixel_y - cy) / fy`.  The
subsequent fisheye correction (`theta = atan(r)` etc., lines 83-90) only
rescales both coordinates by a common factor `scale`, which the embedding
keeps as a parameter since `atan`/`sqrt` have no rational counterpart. -/
def normalized_coords (fx fy cx cy pixel_x pixel_y : ℚ) : ℚ × ℚ :=
  ((pixel_x - cx) / fx, (pixel_y - cy) / fy)

/-! ### Helper lemmas -/

lemma dot_comm (v w : Vec3) : Vec3.dot v w = Vec3.dot w v := by
  simp only [Vec3.dot]; ring

/-- The function `closest_point_between_rays` returns `none` exactly when one of its two
gates fires: the parallel check or the singular-determinant check. -/
lemma cp_none_iff (o1 d1 o2 d2 : Vec3) :
    closest_point_between_rays o1 d1 o2 d2 = none ↔
      996/1000 < |Vec3.dot d1 d2| ∨
      |Vec3.dot d1 d1 * Vec3.dot d2 d2 -
        Vec3.dot d1 d2 * Vec3.dot d1 d2| < 1/1000000 := by
  simp only [closest_point_between_rays]
  split_ifs with h1 h2
  · exact iff_of_true rfl (Or.inl h1)
  · exact iff_of_true rfl (Or.inr h2)
  · exact iff_of_false (by simp) (not_or.mpr ⟨h1, h2⟩)

/-! ### Claim theorems: triangulation -/

/-- C1, counterexample.  The claim says rays whose closest-approach
parameters are negative yield no solution; at the concrete unit rays
`(0,0,1)` from `(0,0,0)` and `(3/5,0,4/5)` from `(1/2,0,0)` both parameters
are negative, yet `closest_point_between_rays` (the variant the claim cites)
returns the behind-camera midpoint `(0,0,-2/3)` with zero separation. -/
theorem closest_point_keeps_behind_camera_point :
    (ray_params ⟨0,0,0⟩ ⟨0,0,1⟩ ⟨1/2,0,0⟩ ⟨3/5,0,4/5⟩).1 < 0 ∧
    (ray_params ⟨0,0,0⟩ ⟨0,0,1⟩ ⟨1/2,0,0⟩ ⟨3/5,0,4/5⟩).2 < 0 ∧
    Vec3.normSq ⟨0,0,1⟩ = 1 ∧ Vec3.normSq ⟨3/5,0,4/5⟩ = 1 ∧
    closest_point_between_rays ⟨0,0,0⟩ ⟨0,0,1⟩ ⟨1/2,0,0⟩ ⟨3/5,0,4/5⟩ =
      some (⟨0,0,-(2/3)⟩, 0) := by
  norm_num [ray_params, closest_point_between_rays, Vec3.dot, Vec3.sub,
    Vec3.add, Vec3.smul, Vec3.normSq, abs_le, abs_lt, lt_abs, le_abs]

/-- C1, amended.  The behind-camera rejection exists only in the
`stereo_triangulation_calibration.py` triangulator: that variant returns no
solution whenever either closest-approach parameter is negative.  The
reconstructor variants the claim cites apply no such gate: they return
`none` exactly when the parallel or singular-determinant check fires, and
otherwise return the midpoint even for negative parameters. -/
theorem behind_camera_gate_only_in_calibration :
    (∀ p1 d1 p2 d2 : Vec3,
        (ray_params p1 d1 p2 d2).1 < 0 ∨ (ray_params p1 d1 p2 d2).2 < 0 →
        closest_point_between_rays_stc p1 d1 p2 d2 = none) ∧
    (∀ o1 d1 o2 d2 : Vec3,
        closest_point_between_rays o1 d1 o2 d2 = none ↔
          996/1000 < |Vec3.dot d1 d2| ∨
          |Vec3.dot d1 d1 * Vec3.dot d2 d2 -
            Vec3.dot d1 d2 * Vec3.dot d1 d2| < 1/1000000) := by
  constructor
  · intro p1 d1 p2 d2 h
    simp only [ray_params] at h
    simp only [closest_point_between_rays_stc]
    split_ifs with h1
    · rfl
    · rfl
  · exact cp_none_iff

/-- C1, witness for the amended theorem: at the behind-camera ray pair of the
counterexample, the calibration-script triangulator does reject. -/
theorem behind_camera_gate_witness :
    closest_point_between_rays_stc ⟨0,0,0⟩ ⟨0,0,1⟩ ⟨1/2,0,0⟩ ⟨3/5,0,4/5⟩ =
      none :=
  behind_camera_gate_only_in_calibration.1 _ _ _ _
    (Or.inl (by norm_num [ray_params, Vec3.dot, Vec3.sub]))

/-- C5.  Whenever `triangulate_pixel_pair` (for any rays, hence for the rays
derived from any pixel pair) returns a point, the squared separation is at
most the square of the configured maximum triangulation error and the
point's height lies between 0 and 2 metres. -/
theorem triangulate_pixel_pair_gates (m : ℚ) (o1 r1 o2 r2 p : Vec3) (e2 : ℚ)
    (h : triangulate_pixel_pair m o1 r1 o2 r2 = some (p, e2)) :
    e2 ≤ m ^ 2 ∧ 0 ≤ p.z ∧ p.z ≤ 2 := by
  rw [triangulate_pixel_pair.eq_def] at h
  rcases hc : closest_point_between_rays o1 r1 o2 r2 with _ | ⟨q, s⟩
  · rw [hc] at h; exact absurd h (by simp)
  · rw [hc] at h
    dsimp only at h
    split_ifs at h with h1 h2 h3
    all_goals simp only [Option.some.injEq, Prod.mk.injEq] at h
    obtain ⟨hq, hs⟩ := h
    subst hq; subst hs
    exact ⟨not_lt.mp h1, not_lt.mp h2, not_lt.mp h3⟩

/-- C5, witness: two rays crossing at `(0,0,2/3)` pass every gate. -/
theorem triangulate_pixel_pair_gates_witness :
    (0 : ℚ) ≤ (1/10 : ℚ) ^ 2 ∧ (0 : ℚ) ≤ (⟨0,0,2/3⟩ : Vec3).z ∧
      (⟨0,0,2/3⟩ : Vec3).z ≤ 2 := by
  have h := triangulate_pixel_pair_gates (1/10) ⟨0,0,0⟩ ⟨0,0,1⟩ ⟨1/2,0,0⟩
    ⟨-(3/5),0,4/5⟩ ⟨0,0,2/3⟩ 0
    (by
      rw [triangulate_pixel_pair.eq_def,
        show closest_point_between_rays ⟨0,0,0⟩ ⟨0,0,1⟩ ⟨1/2,0,0⟩
            ⟨-(3/5),0,4/5⟩ = some (⟨0,0,2/3⟩, 0) from by
          norm_num [closest_point_between_rays, Vec3.dot, Vec3.sub,
            Vec3.add, Vec3.smul, Vec3.normSq, abs_le, abs_lt, lt_abs,
            le_abs]]
      norm_num)
  exact ⟨h.1, h.2⟩

/-- C6.  Rays with direction dot product of magnitude above 0.996, and rays
with a near-singular 2×2 system, are rejected; in particular two parallel
vertical rays from `(0,0,0)` and `(0.5,0,0)` yield no solution. -/
theorem parallel_ray_rejection :
    (∀ o1 d1 o2 d2 : Vec3, 996/1000 < |Vec3.dot d1 d2| →
        closest_point_between_rays o1 d1 o2 d2 = none) ∧
    (∀ o1 d1 o2 d2 : Vec3,
        |Vec3.dot d1 d1 * Vec3.dot d2 d2 -
          Vec3.dot d1 d2 * Vec3.dot d1 d2| < 1/1000000 →
        closest_point_between_rays o1 d1 o2 d2 = none) ∧
    closest_point_between_rays ⟨0,0,0⟩ ⟨0,0,1⟩ ⟨1/2,0,0⟩ ⟨0,0,1⟩ = none := by
  refine ⟨fun o1 d1 o2 d2 h => (cp_none_iff _ _ _ _).2 (Or.inl h),
          fun o1 d1 o2 d2 h => (cp_none_iff _ _ _ _).2 (Or.inr h), ?_⟩
  norm_num [closest_point_between_rays, Vec3.dot, abs_le, abs_lt,
    lt_abs, le_abs]

/-- C6, witness: antiparallel vertical rays are rejected through the
parallel gate. -/
theorem parallel_ray_rejection_witness :
    closest_point_between_rays ⟨0,0,0⟩ ⟨0,0,1⟩ ⟨1/2,0,0⟩ ⟨0,0,-1⟩ = none :=
  parallel_ray_rejection.1 _ _ _ _ (by norm_num [Vec3.dot, lt_abs])

/-- C9.  Triangulation is order-independent in its two ray arguments: both
gates, the midpoint, and the separation are symmetric under swapping
`(origin1, dir1)` with `(origin2, dir2)`. -/
theorem triangulation_symmetric (o1 d1 o2 d2 : Vec3) :
    closest_point_between_rays o1 d1 o2 d2 =
      closest_point_between_rays o2 d2 o1 d1 := by
  have hb : Vec3.dot d2 d1 = Vec3.dot d1 d2 := dot_comm d2 d1
  have hden : Vec3.dot d2 d2 * Vec3.dot d1 d1 -
      Vec3.dot d2 d1 * Vec3.dot d2 d1 =
      Vec3.dot d1 d1 * Vec3.dot d2 d2 - Vec3.dot d1 d2 * Vec3.dot d1 d2 := by
    rw [hb]; ring
  by_cases h1 : 996/1000 < |Vec3.dot d1 d2|
  · rw [(cp_none_iff o1 d1 o2 d2).2 (Or.inl h1),
      (cp_none_iff o2 d2 o1 d1).2 (Or.inl (by rw [hb]; exact h1))]
  · by_cases h2 : |Vec3.dot d1 d1 * Vec3.dot d2 d2 -
        Vec3.dot d1 d2 * Vec3.dot d1 d2| < 1/1000000
    · rw [(cp_none_iff o1 d1 o2 d2).2 (Or.inr h2),
        (cp_none_iff o2 d2 o1 d1).2 (Or.inr (by rw [hden]; exact h2))]
    · have h1' : ¬ 996/1000 < |Vec3.dot d2 d1| := by rw [hb]; exact h1
      have h2' : ¬ |Vec3.dot d2 d2 * Vec3.dot d1 d1 -
          Vec3.dot d2 d1 * Vec3.dot d2 d1| < 1/1000000 := by
        rw [hden]; exact h2
      simp only [closest_point_between_rays, if_neg h1, if_neg h2,
        if_neg h1', if_neg h2']
      obtain ⟨a1, b1, c1⟩ := o1
      obtain ⟨a2, b2, c2⟩ := o2
      obtain ⟨u1, v1, w1⟩ := d1
      obtain ⟨u2, v2, w2⟩ := d2
      simp only [Vec3.dot, Vec3.sub, Vec3.add, Vec3.smul, Vec3.normSq,
        Option.some.injEq, Prod.mk.injEq, Vec3.mk.injEq]
      refine ⟨⟨?_, ?_, ?_⟩, ?_⟩ <;> ring

/-- C10.  The camera-local ray of `get_ray_direction` has its third (height)
component fixed at 1 before normalization, and after dividing by the
Euclidean norm — any `n ≥ 0` with `n² = ‖ray‖²` — the height component is
still strictly positive, for every pixel and every fisheye scale factor. -/
theorem ray_direction_points_up (fx fy cx cy px py scale n : ℚ)
    (hn0 : 0 ≤ n)
    (hn : n ^ 2 = Vec3.normSq (camera_ray
      (scale * (normalized_coords fx fy cx cy px py).1)
      (scale * (normalized_coords fx fy cx cy px py).2))) :
    (camera_ray (scale * (normalized_coords fx fy cx cy px py).1)
      (scale * (normalized_coords fx fy cx cy px py).2)).z = 1 ∧
    0 < (normalize_by n (camera_ray
      (scale * (normalized_coords fx fy cx cy px py).1)
      (scale * (normalized_coords fx fy cx cy px py).2))).z := by
  constructor
  · rfl
  · have h1 : 1 ≤ n ^ 2 := by
      rw [hn]
      simp only [Vec3.normSq, Vec3.dot, camera_ray]
      nlinarith [mul_self_nonneg (scale * (normalized_coords fx fy cx cy px py).1),
        mul_self_nonneg (scale * (normalized_coords fx fy cx cy px py).2)]
    have hpos : 0 < n := by nlinarith
    simp only [normalize_by, camera_ray]
    exact div_pos one_pos hpos

/-- C10, witness: at the principal point with unit intrinsics the ray is
`(0,0,1)` and its normalized height component is positive. -/
theorem ray_direction_points_up_witness :
    (camera_ray (1 * (normalized_coords 1 1 0 0 0 0).1)
      (1 * (normalized_coords 1 1 0 0 0 0).2)).z = 1 ∧
    0 < (normalize_by 1 (camera_ray
      (1 * (normalized_coords 1 1 0 0 0 0).1)
      (1 * (normalized_coords 1 1 0 0 0 0).2))).z :=
  ray_direction_points_up 1 1 0 0 0 0 1 1 (by norm_num)
    (by norm_num [Vec3.normSq, Vec3.dot, camera_ray, normalized_coords])

/-! ### Helper lemmas: grid, traversal and motion extraction -/

lemma accumulate_contribs_apply (l : List Contribution) (g : Grid)
    (i : VoxelIdx) :
    accumulate_contribs g l i = g i + contrib_sum l i := by
  induction l generalizing g with
  | nil => simp [accumulate_contribs, contrib_sum]
  | cons a l ih =>
    have h1 : accumulate_contribs g (a :: l) =
        accumulate_contribs (Function.update g a.1 (g a.1 + a.2)) l := rfl
    rw [h1, ih]
    by_cases hai : a.1 = i
    · subst hai
      rw [Function.update_same]
      simp [contrib_sum, List.filter_cons]
      ring
    · rw [Function.update_noteq (fun h => hai h.symm)]
      simp [contrib_sum, List.filter_cons, hai]

lemma contrib_sum_nonneg (l : List Contribution) (i : VoxelIdx)
    (hl : ∀ e ∈ l, 0 ≤ e.2) : 0 ≤ contrib_sum l i := by
  unfold contrib_sum
  apply List.sum_nonneg
  intro x hx
  rcases List.mem_map.mp hx with ⟨e, he, rfl⟩
  exact hl e (List.mem_filter.mp he).1

lemma accumulate_contribs_nonneg (l : List Contribution) (g : Grid)
    (hg : ∀ j, 0 ≤ g j) (hl : ∀ e ∈ l, 0 ≤ e.2) (i : VoxelIdx) :
    0 ≤ accumulate_contribs g l i := by
  rw [accumulate_contribs_apply]
  exact add_nonneg (hg i) (contrib_sum_nonneg l i hl)

lemma frame_cycle_nonneg (boost decay : ℚ) (left right : List Contribution)
    (g : Grid) (hb : 0 ≤ boost) (hd : 0 ≤ decay) (hg : ∀ j, 0 ≤ g j)
    (hl : ∀ e ∈ left, 0 ≤ e.2) (hr : ∀ e ∈ right, 0 ≤ e.2) (i : VoxelIdx) :
    0 ≤ frame_cycle boost decay left right g i := by
  have hacc : ∀ j, 0 ≤ accumulate_contribs (accumulate_contribs g left)
      right j :=
    fun j => accumulate_contribs_nonneg right _
      (fun j' => accumulate_contribs_nonneg left g hg hl j') hr j
  unfold frame_cycle apply_decay apply_boost
  split_ifs
  · exact mul_nonneg (mul_nonneg (hacc i) hb) hd
  · exact mul_nonneg (hacc i) hd

/-- Decoding of the clamped index triple of `world_to_voxel`. -/
lemma world_to_voxel_bounds (c : VoxelConfig) (p : Vec3) (v : ℤ × ℤ × ℤ)
    (hx : 0 < c.nx) (hy : 0 < c.ny) (hz : 0 < c.nz)
    (hv : world_to_voxel c p = some v) :
    0 ≤ v.1 ∧ v.1 < c.nx ∧ 0 ≤ v.2.1 ∧ v.2.1 < c.ny ∧
      0 ≤ v.2.2 ∧ v.2.2 < c.nz := by
  unfold world_to_voxel at hv
  split_ifs at hv
  simp only [Option.some.injEq] at hv
  subst hv
  refine ⟨le_max_left 0 _, ?_, le_max_left 0 _, ?_, le_max_left 0 _, ?_⟩
  · exact max_lt hx (lt_of_le_of_lt (min_le_right _ _) (by omega))
  · exact max_lt hy (lt_of_le_of_lt (min_le_right _ _) (by omega))
  · exact max_lt hz (lt_of_le_of_lt (min_le_right _ _) (by omega))

lemma traverse_step_bounds (camera_pos ray_dir : Vec3) (grid_size : ℤ)
    (voxel_size step_size intensity : ℚ)
    (acc : List Contribution × List VoxelIdx) (i : ℕ)
    (hacc : ∀ e ∈ acc.1, 0 ≤ e.1.1 ∧ e.1.1 < grid_size ∧ 0 ≤ e.1.2.1 ∧
      e.1.2.1 < grid_size ∧ 0 ≤ e.1.2.2 ∧ e.1.2.2 < grid_size) :
    ∀ e ∈ (traverse_step camera_pos ray_dir grid_size voxel_size step_size
        intensity acc i).1,
      0 ≤ e.1.1 ∧ e.1.1 < grid_size ∧ 0 ≤ e.1.2.1 ∧ e.1.2.1 < grid_size ∧
        0 ≤ e.1.2.2 ∧ e.1.2.2 < grid_size := by
  intro e he
  simp only [traverse_step] at he
  split_ifs at he with h1 h2 h3
  · exact hacc e he
  · exact hacc e he
  · rcases List.mem_append.mp he with h | h
    · exact hacc e h
    · rcases List.mem_singleton.mp h with rfl
      obtain ⟨hx0, hx1, hy0, hy1, hz0, hz1⟩ := h2
      exact ⟨hz0, hz1, hy0, hy1, hx0, hx1⟩
  · exact hacc e he

lemma traverse_foldl_bounds (camera_pos ray_dir : Vec3) (grid_size : ℤ)
    (voxel_size step_size intensity : ℚ) (l : List ℕ)
    (acc : List Contribution × List VoxelIdx)
    (hacc : ∀ e ∈ acc.1, 0 ≤ e.1.1 ∧ e.1.1 < grid_size ∧ 0 ≤ e.1.2.1 ∧
      e.1.2.1 < grid_size ∧ 0 ≤ e.1.2.2 ∧ e.1.2.2 < grid_size) :
    ∀ e ∈ (l.foldl (traverse_step camera_pos ray_dir grid_size voxel_size
        step_size intensity) acc).1,
      0 ≤ e.1.1 ∧ e.1.1 < grid_size ∧ 0 ≤ e.1.2.1 ∧ e.1.2.1 < grid_size ∧
        0 ≤ e.1.2.2 ∧ e.1.2.2 < grid_size := by
  induction l generalizing acc with
  | nil => exact hacc
  | cons i l ih =>
    exact ih _ (traverse_step_bounds camera_pos ray_dir grid_size voxel_size
      step_size intensity acc i hacc)

lemma mem_every_nth {α : Type} (l : List α) (k : ℕ) (x : α)
    (hx : x ∈ every_nth l k) : x ∈ l := by
  unfold every_nth at hx
  rcases List.mem_map.mp hx with ⟨p, hp, rfl⟩
  exact List.snd_mem_of_mem_enum (List.mem_filter.mp hp).1

/-! ### Claim theorems: voxel grid and motion extraction -/

/-- C2.  A cell hit by both cameras in one frame ends the cycle at
`(base + contributions) * boost * decay`, and every cell's end-of-cycle
value is its post-boost value multiplied by the decay factor exactly once
(decay comes last and is applied a single time to the whole grid). -/
theorem boost_applied_before_decay (boost decay : ℚ)
    (left right : List Contribution) (g : Grid) (i : VoxelIdx)
    (hl : seen_by left i = true) (hr : seen_by right i = true) :
    frame_cycle boost decay left right g i =
      (g i + contrib_sum left i + contrib_sum right i) * boost * decay ∧
    ∀ j, frame_cycle boost decay left right g j =
      apply_boost boost left right
        (accumulate_contribs (accumulate_contribs g left) right) j *
        decay := by
  constructor
  · unfold frame_cycle apply_decay apply_boost
    rw [if_pos (by rw [hl, hr]; rfl), accumulate_contribs_apply,
      accumulate_contribs_apply]
  · intro j; rfl

/-- C2, witness at a one-cell frame seen by both cameras. -/
theorem boost_applied_before_decay_witness :
    frame_cycle (3/2) (99/100) [((0,0,0), 1/2)] [((0,0,0), 1/4)]
        (fun _ => 0) (0,0,0) =
      ((fun _ => (0:ℚ)) (0,0,0) + contrib_sum [((0,0,0), 1/2)] (0,0,0) +
        contrib_sum [((0,0,0), 1/4)] (0,0,0)) * (3/2) * (99/100) :=
  (boost_applied_before_decay (3/2) (99/100) [((0,0,0), 1/2)]
    [((0,0,0), 1/4)] (fun _ => 0) (0,0,0) (by simp [seen_by])
    (by simp [seen_by])).1

/-- C3.  A frame cycle with no contributions multiplies every cell by the
decay factor, which for `0 < decay < 1` strictly decreases every positive
cell while keeping it positive, and never increases any nonnegative cell. -/
theorem decay_only_cycle_decreases (boost decay : ℚ) (g : Grid)
    (i : VoxelIdx) (hd0 : 0 < decay) (hd1 : decay < 1) :
    frame_cycle boost decay [] [] g i = g i * decay ∧
    (0 < g i → frame_cycle boost decay [] [] g i < g i ∧
      0 < frame_cycle boost decay [] [] g i) ∧
    (0 ≤ g i → frame_cycle boost decay [] [] g i ≤ g i) := by
  have he : frame_cycle boost decay [] [] g i = g i * decay := by
    simp [frame_cycle, apply_decay, apply_boost, seen_by,
      accumulate_contribs]
  refine ⟨he, fun hg => ?_, fun hg => ?_⟩
  · rw [he]
    exact ⟨by nlinarith, mul_pos hg hd0⟩
  · rw [he]; nlinarith

/-- C3, witness at a cell holding confidence 1/2. -/
theorem decay_only_cycle_decreases_witness :
    frame_cycle (3/2) (99/100) [] [] (fun _ => 1/2) (0,0,0) =
      (fun _ => (1:ℚ)/2) (0,0,0) * (99/100) ∧
    (0 < (fun _ => (1:ℚ)/2) (0,0,0) →
      frame_cycle (3/2) (99/100) [] [] (fun _ => 1/2) (0,0,0) <
        (fun _ => (1:ℚ)/2) (0,0,0) ∧
      0 < frame_cycle (3/2) (99/100) [] [] (fun _ => 1/2) (0,0,0)) ∧
    (0 ≤ (fun _ => (1:ℚ)/2) (0,0,0) →
      frame_cycle (3/2) (99/100) [] [] (fun _ => 1/2) (0,0,0) ≤
        (fun _ => (1:ℚ)/2) (0,0,0)) :=
  decay_only_cycle_decreases (3/2) (99/100) (fun _ => 1/2) (0,0,0)
    (by norm_num) (by norm_num)

/-- C4.  Positions outside the configured box are dropped by
`world_to_voxel` (no cell, hence no write); returned indices always lie in
`[0, grid_dim)` on every axis; `accumulate_voxel` changes no cell outside
those bounds; and every cell emitted by `traverse_ray_3d` lies in
`[0, grid_size)` on every axis. -/
theorem bounds_safety :
    (∀ (c : VoxelConfig) (p : Vec3), ¬ in_box c p →
      world_to_voxel c p = none) ∧
    (∀ (c : VoxelConfig) (p : Vec3) (v : ℤ × ℤ × ℤ),
      0 < c.nx → 0 < c.ny → 0 < c.nz → world_to_voxel c p = some v →
      0 ≤ v.1 ∧ v.1 < c.nx ∧ 0 ≤ v.2.1 ∧ v.2.1 < c.ny ∧
        0 ≤ v.2.2 ∧ v.2.2 < c.nz) ∧
    (∀ (c : VoxelConfig) (g : Grid) (p : Vec3) (conf : ℚ) (i : VoxelIdx),
      0 < c.nx → 0 < c.ny → 0 < c.nz →
      (accumulate_voxel c g p conf).1 i ≠ g i →
      0 ≤ i.1 ∧ i.1 < c.nx ∧ 0 ≤ i.2.1 ∧ i.2.1 < c.ny ∧
        0 ≤ i.2.2 ∧ i.2.2 < c.nz) ∧
    (∀ (camera_pos ray_dir : Vec3) (grid_size : ℤ)
      (voxel_size max_distance intensity : ℚ) (e : Contribution),
      e ∈ traverse_ray_3d camera_pos ray_dir grid_size voxel_size
        max_distance intensity →
      0 ≤ e.1.1 ∧ e.1.1 < grid_size ∧ 0 ≤ e.1.2.1 ∧ e.1.2.1 < grid_size ∧
        0 ≤ e.1.2.2 ∧ e.1.2.2 < grid_size) := by
  refine ⟨?_, fun c p v => world_to_voxel_bounds c p v, ?_, ?_⟩
  · intro c p hbox
    unfold world_to_voxel
    split_ifs with h1 h2 h3
    any_goals rfl
    all_goals exact absurd ⟨h1, h2, h3⟩ hbox
  · intro c g p conf i hx hy hz hne
    unfold accumulate_voxel at hne
    cases hw : world_to_voxel c p with
    | none => rw [hw] at hne; exact absurd rfl hne
    | some v =>
      rw [hw] at hne
      dsimp only at hne
      have hiv : i = v := by
        by_contra hne2
        rw [Function.update_noteq hne2] at hne
        exact hne rfl
      subst hiv
      exact world_to_voxel_bounds c p i hx hy hz hw
  · intro camera_pos ray_dir grid_size voxel_size max_distance intensity e he
    unfold traverse_ray_3d at he
    exact traverse_foldl_bounds camera_pos ray_dir grid_size voxel_size _
      intensity _ _ (by simp) e he

/-- C4, witness: the in-box point `(0, 0, 1/2)` of the stereo reconstructor
configuration maps to an index inside `[0,100)³`. -/
theorem bounds_safety_witness :
    0 ≤ (25 : ℤ) ∧ (25 : ℤ) < svr_config.nx ∧ 0 ≤ (50 : ℤ) ∧
      (50 : ℤ) < svr_config.ny ∧ 0 ≤ (50 : ℤ) ∧ (50 : ℤ) < svr_config.nz :=
  bounds_safety.2.1 svr_config ⟨0, 0, 1/2⟩ (25, 50, 50)
    (by norm_num [svr_config]) (by norm_num [svr_config])
    (by norm_num [svr_config])
    (by norm_num [world_to_voxel, svr_config, pyInt])

/-- C7.  A pixel appears in the motion extractor's output only if its
intensity difference from the previous frame exceeds the motion threshold
AND its current intensity exceeds the intensity threshold, and its reported
value is its current intensity; with no previous frame the output is
empty. -/
theorem motion_pixel_conjunction :
    (∀ (mt mi : ℤ) (H W : ℕ) (cur prev : ℕ → ℕ → ℤ) (mp : ℕ)
      (x y : ℕ) (v : ℤ),
      (x, y, v) ∈ detect_motion_pixels mt mi H W cur (some prev) mp →
      mt < |cur y x - prev y x| ∧ mi < cur y x ∧ v = cur y x) ∧
    (∀ (mt mi : ℤ) (H W : ℕ) (cur : ℕ → ℕ → ℤ) (mp : ℕ),
      detect_motion_pixels mt mi H W cur none mp = []) := by
  constructor
  · intro mt mi H W cur prev mp x y v hmem
    simp only [detect_motion_pixels] at hmem
    have hP : (x, y, v) ∈ (((List.range H).flatMap
        (fun y => (List.range W).map (fun x => (x, y)))).filter (fun q =>
          decide (mt < |cur q.2 q.1 - prev q.2 q.1|) &&
          decide (mi < cur q.2 q.1))).map
        (fun q => (q.1, q.2, cur q.2 q.1)) := by
      split_ifs at hmem with hlen
      · exact mem_every_nth _ _ _ (List.mem_of_mem_take hmem)
      · exact hmem
    rcases List.mem_map.mp hP with ⟨q, hq, heq⟩
    have hcond := (List.mem_filter.mp hq).2
    simp only [Bool.and_eq_true, decide_eq_true_eq] at hcond
    obtain ⟨h1, h2, h3⟩ : q.1 = x ∧ q.2 = y ∧ cur q.2 q.1 = v := by
      simpa [Prod.ext_iff] using heq
    rw [← h1, ← h2, ← h3]
    exact ⟨hcond.1, hcond.2, rfl⟩
  · intro mt mi H W cur mp; rfl

/-- C7, witness on a 1×1 frame with intensity 200 over a zero previous
frame. -/
theorem motion_pixel_conjunction_witness :
    (30 : ℤ) < |(fun _ _ => (200:ℤ)) 0 0 - (fun _ _ => (0:ℤ)) 0 0| ∧
    (100 : ℤ) < (fun _ _ => (200:ℤ)) 0 0 ∧
    (200 : ℤ) = (fun _ _ => (200:ℤ)) 0 0 :=
  motion_pixel_conjunction.1 30 100 1 1 (fun _ _ => 200) (fun _ _ => 0)
    100 0 0 200 (by decide)

/-- C8.  Every operation of the frame cycle preserves cellwise
nonnegativity — accumulation of nonnegative contributions, the multi-camera
boost, the temporal decay, and `accumulate_voxel` with nonnegative
confidence — and any run of frame cycles with nonnegative parameters from
the all-zero grid leaves every cell nonnegative. -/
theorem grid_nonneg_invariant :
    (∀ (g : Grid) (l : List Contribution) (i : VoxelIdx),
      (∀ j, 0 ≤ g j) → (∀ e ∈ l, 0 ≤ e.2) →
      0 ≤ accumulate_contribs g l i) ∧
    (∀ (boost : ℚ) (left right : List Contribution) (g : Grid)
      (i : VoxelIdx), 0 ≤ boost → (∀ j, 0 ≤ g j) →
      0 ≤ apply_boost boost left right g i) ∧
    (∀ (decay : ℚ) (g : Grid) (i : VoxelIdx),
      0 ≤ decay → (∀ j, 0 ≤ g j) → 0 ≤ apply_decay decay g i) ∧
    (∀ (c : VoxelConfig) (g : Grid) (p : Vec3) (conf : ℚ) (i : VoxelIdx),
      (∀ j, 0 ≤ g j) → 0 ≤ conf → 0 ≤ (accumulate_voxel c g p conf).1 i) ∧
    (∀ (boost decay : ℚ)
      (frames : List (List Contribution × List Contribution)) (i : VoxelIdx),
      0 ≤ boost → 0 ≤ decay →
      (∀ f ∈ frames, (∀ e ∈ f.1, 0 ≤ e.2) ∧ (∀ e ∈ f.2, 0 ≤ e.2)) →
      0 ≤ run_cycles boost decay frames (fun _ => 0) i) := by
  refine ⟨fun g l i hg hl => accumulate_contribs_nonneg l g hg hl i,
    ?_, ?_, ?_, ?_⟩
  · intro boost left right g i hb hg
    unfold apply_boost
    split_ifs
    · exact mul_nonneg (hg i) hb
    · exact hg i
  · intro decay g i hd hg
    exact mul_nonneg (hg i) hd
  · intro c g p conf i hg hc
    unfold accumulate_voxel
    cases hw : world_to_voxel c p with
    | none => exact hg i
    | some v =>
      dsimp only
      simp only [Function.update_apply]
      split_ifs
      · exact add_nonneg (hg v) hc
      · exact hg i
  · intro boost decay frames i hb hd hf
    have key : ∀ (fs : List (List Contribution × List Contribution))
        (g : Grid), (∀ j, 0 ≤ g j) →
        (∀ f ∈ fs, (∀ e ∈ f.1, 0 ≤ e.2) ∧ (∀ e ∈ f.2, 0 ≤ e.2)) →
        ∀ j, 0 ≤ run_cycles boost decay fs g j := by
      intro fs
      induction fs with
      | nil => intro g hg _ j; exact hg j
      | cons f fs ih =>
        intro g hg hfs j
        have hstep : ∀ j, 0 ≤ frame_cycle boost decay f.1 f.2 g j :=
          frame_cycle_nonneg boost decay f.1 f.2 g hb hd hg
            (hfs f (List.mem_cons_self f fs)).1
            (hfs f (List.mem_cons_self f fs)).2
        exact ih _ hstep
          (fun f' hf' => hfs f' (List.mem_cons_of_mem f hf')) j
    exact key frames (fun _ => 0) (fun _ => le_refl 0) hf i

/-- C8, witness: one two-camera frame from the zero grid keeps the cell
nonnegative. -/
theorem grid_nonneg_invariant_witness :
    0 ≤ run_cycles (3/2) (99/100) [([((0,0,0), 1/2)], [((0,0,0), 1/4)])]
      (fun _ => 0) (0,0,0) :=
  grid_nonneg_invariant.2.2.2.2 (3/2) (99/100)
    [([((0,0,0), 1/2)], [((0,0,0), 1/4)])] (0,0,0) (by norm_num)
    (by norm_num)
    (by
      intro f hf
      rw [List.mem_singleton.mp hf]
      constructor <;> intro e he <;> rw [List.mem_singleton.mp he] <;>
        norm_num)

end FisheyeStereo
